import Mathlib

/-!
# CLA server: signing-status robot and link controller

A shallow embedding of `robot/cla/cla.go` and of `controllers/link.go`, with the
properties of the reconciliation step, of the guidance comment, of the
`/check-cla` command pattern and of link creation.
-/

namespace CLA

/-! ## Strings -/

/-- Text of the Go program. A Go `string` is a sequence of bytes: in the functions
of `cla.go` that measure or slice a string (`len`, `s[:n]`, `strings.HasPrefix`) one
element of the list stands for one byte, so that `List.length` is Go's `len`.
ASCII text is written as itself. -/
abbrev Str := List Char

/-- Go's `fmt.Sprintf` for formats whose only verb is `%s`: every `%s` is replaced
by the next operand, a verb without an operand prints `%!s(MISSING)`. -/
def sprintf : Str → List Str → Str
  | '%' :: 's' :: rest, a :: as => a ++ sprintf rest as
  | '%' :: 's' :: rest, [] => "%!s(MISSING)".toList ++ sprintf rest []
  | c :: rest, as => c :: sprintf rest as
  | [], _ => []

/-- Go's `strings.Join`: the elements separated by `sep`. -/
def stringsJoin : List Str → Str → Str
  | [], _ => []
  | [a], _ => a
  | a :: b :: rest, sep => a ++ sep ++ stringsJoin (b :: rest) sep

/-- Go's `strings.HasPrefix`. -/
def hasPrefix (s pre : Str) : Bool :=
  decide (pre.length ≤ s.length) && decide (s.take pre.length = pre)

/-! ## Constants of `cla.go` -/

def maxLengthOfSHA : Nat := 8

def signGuideTitle : Str :=
  "Thanks for your pull request.\n\nThe authors of the following commits have not signed the Contributor License Agreement (CLA):".toList

def signGuideTitleOld : Str :=
  "Thanks for your pull request. Before we can look at your pull request, you'll need to sign a Contributor License Agreement (CLA).".toList

/-! ## Data model of the robot -/

/-- The fields of `PRInfo` that `cla.go` reads. -/
structure PRInfo where
  Org : Str
  Repo : Str
  Number : Nat
  deriving DecidableEq

/-- The fields of `CLARepoConfig` that `cla.go` reads. -/
structure CLARepoConfig where
  CLAID : Str
  CheckByCommitter : Bool
  CLALabelYes : Str
  CLALabelNo : Str
  deriving DecidableEq

/-- A Go `map[string]string` from commit SHA to commit message, given by its entries
in the order in which `range` visits them. -/
abbrev CommitMap := List (Str × Str)

/-- A call made on the issue-tracker client. -/
inductive Call where
  | getUnsignedCommits (pr : PRInfo) (checkByCommitter : Bool)
  | addPRLabel (pr : PRInfo) (label : Str)
  | removePRLabel (pr : PRInfo) (label : Str)
  | createPRComment (pr : PRInfo) (text : Str)
  | deletePRComment (pr : PRInfo)
  deriving DecidableEq

/-- Whether a call changes labels or comments of the pull request. -/
def Call.isMutation : Call → Bool
  | .getUnsignedCommits _ _ => false
  | _ => true

/-- The pull request as the issue tracker holds it, with the calls received so far
and the messages handed to the logger. -/
structure World where
  labels : Finset Str
  comments : List Str
  calls : List Call
  logged : List Str

/-- The issue-tracker client: what `GetUnsignedCommits` answers, and for every
mutating call, given the calls made before it, whether it succeeds. -/
structure Client where
  GetUnsignedCommits : PRInfo → Bool → (Str → Bool) → Except Str CommitMap
  succeeds : List Call → Call → Bool

/-- The handler `cla` built by `NewCLA`; `CLAFor` is `getConfig().CLAFor` and
`IsIndividualSigned` is the first result of `models.IsIndividualSigned`. -/
structure cla where
  CLAFor : Str → Str → Option CLARepoConfig
  IsIndividualSigned : Str → Str → Bool
  c : Client
  signURL : Str
  faqOfCheckingByAuthor : Str
  faqOfCheckingByCommitter : Str

/-! ## Client operations -/

/-- The call `AddPRLabel`: returns whether it failed (`err != nil`); on success the label is
attached, on failure the labels are unchanged. -/
def Client.AddPRLabel (c : Client) (pr : PRInfo) (label : Str) (w : World) : Bool × World :=
  let call := Call.addPRLabel pr label
  if c.succeeds w.calls call then
    (false, { w with labels := insert label w.labels, calls := w.calls ++ [call] })
  else
    (true, { w with calls := w.calls ++ [call] })

/-- The call `RemovePRLabel`: returns whether it failed; on success the label is detached. -/
def Client.RemovePRLabel (c : Client) (pr : PRInfo) (label : Str) (w : World) : Bool × World :=
  let call := Call.removePRLabel pr label
  if c.succeeds w.calls call then
    (false, { w with labels := w.labels.erase label, calls := w.calls ++ [call] })
  else
    (true, { w with calls := w.calls ++ [call] })

/-- The call `CreatePRComment`: returns whether it failed; on success one comment is appended. -/
def Client.CreatePRComment (c : Client) (pr : PRInfo) (text : Str) (w : World) : Bool × World :=
  let call := Call.createPRComment pr text
  if c.succeeds w.calls call then
    (false, { w with comments := w.comments ++ [text], calls := w.calls ++ [call] })
  else
    (true, { w with calls := w.calls ++ [call] })

/-- The call `DeletePRComment`: returns whether it failed; on success every comment that
satisfies the predicate is removed. -/
def Client.DeletePRComment (c : Client) (pr : PRInfo) (f : Str → Bool) (w : World) : Bool × World :=
  let call := Call.deletePRComment pr
  if c.succeeds w.calls call then
    (false, { w with comments := w.comments.filter (fun s => !f s), calls := w.calls ++ [call] })
  else
    (true, { w with calls := w.calls ++ [call] })

/-! ## `cla.go` -/

/-- The closure `log` of `handle`: the message is handed to the logger. -/
def logWarning (msg : Str) (w : World) : World :=
  { w with logged := w.logged ++ [msg] }

/-- The predicate that `deleteSignGuide` passes to `DeletePRComment`. -/
def isSignGuide (s : Str) : Bool :=
  hasPrefix s signGuideTitle || hasPrefix s signGuideTitleOld

def cla.deleteSignGuide (cl : cla) (pr : PRInfo) (w : World) : World :=
  (cl.c.DeletePRComment pr isSignGuide w).2

/-- The loop of `generateUnSignComment`: one formatted line is appended per entry. -/
def unSignLines : CommitMap → List Str → List Str
  | [], cs => cs
  | (sha, msg) :: rest, cs =>
    let sha := if sha.length > maxLengthOfSHA then sha.take maxLengthOfSHA else sha
    unSignLines rest (cs ++ [sprintf "**%s** | %s".toList [sha, msg]])

def generateUnSignComment (commits : CommitMap) : Str :=
  if commits.length = 0 then []
  else stringsJoin (unSignLines commits []) "\n".toList

def signGuideFormat : Str :=
  "%s\n\n%s\n\nPlease check the [**FAQs**](%s) first.\nYou can click [**here**](%s) to sign the CLA. After signing the CLA, you must comment \"/check-cla\" to check the CLA status again.".toList

def signGuide (signURL cInfo faq : Str) : Str :=
  sprintf signGuideFormat [signGuideTitle, cInfo, faq, signURL]

/-! ## Go's `path` package -/

/-- The pieces of a text between the occurrences of a separator. -/
def splitAt (sep : Char) : Str → List Str
  | [] => [[]]
  | c :: cs =>
    if c = sep then [] :: splitAt sep cs
    else
      match splitAt sep cs with
      | l :: ls => (c :: l) :: ls
      | [] => [[c]]

/-- One element of a path read by `path.Clean`. `out` holds the elements written so
far, the last one first. An empty element and `.` are dropped; `..` removes the last
element written, and where there is none to remove it is dropped in a rooted path
and kept in a relative one. -/
def cleanElem (rooted : Bool) (out : List Str) (e : Str) : List Str :=
  if e = [] ∨ e = ['.'] then out
  else if e = ['.', '.'] then
    match out with
    | top :: below => if top = ['.', '.'] then e :: out else below
    | [] => if rooted then [] else [e]
  else e :: out

/-- Go's `path.Clean`: the shortest path equivalent to the argument, by elements. -/
def pathClean (p : Str) : Str :=
  if p = [] then ['.']
  else
    let rooted := decide (p.head? = some '/')
    let out := ((splitAt '/' p).foldl (cleanElem rooted) []).reverse
    if rooted then '/' :: stringsJoin out ['/']
    else if out = [] then ['.']
    else stringsJoin out ['/']

/-- Go's `path.Join`: the elements from the first non-empty one on, joined with
slashes and cleaned; the empty string when all are empty. -/
def pathJoin : List Str → Str
  | [] => []
  | e :: rest => if e ≠ [] then pathClean (stringsJoin (e :: rest) ['/']) else pathJoin rest

/-! ## `cla.handle` and `cla.Handle` -/

/-- The shape `if err := call; err != nil { log(msg, err) }`. -/
def logIfFailed (r : Bool × World) (msg : Str) : World :=
  if r.1 then logWarning msg r.2 else r.2

def cla.handle (cl : cla) (pr : PRInfo) (labels : Finset Str) (cfg : CLARepoConfig)
    (unsigned : CommitMap) (faqURL : Str) (w : World) : World :=
  let hasCLAYes := decide (cfg.CLALabelYes ∈ labels)
  let hasCLANo := decide (cfg.CLALabelNo ∈ labels)
  let w := cl.deleteSignGuide pr w
  if unsigned.length = 0 then
    let w :=
      if hasCLANo then
        logIfFailed (cl.c.RemovePRLabel pr cfg.CLALabelNo w)
          (sprintf "Could not remove %s label".toList [cfg.CLALabelNo])
      else w
    let w :=
      if !hasCLAYes then
        logIfFailed (cl.c.AddPRLabel pr cfg.CLALabelYes w)
          (sprintf "Could not add %s label".toList [cfg.CLALabelYes])
      else w
    w
  else
    let w :=
      if hasCLAYes then
        logIfFailed (cl.c.RemovePRLabel pr cfg.CLALabelYes w)
          (sprintf "Could not remove %s label".toList [cfg.CLALabelYes])
      else w
    let w :=
      if !hasCLANo then
        logIfFailed (cl.c.AddPRLabel pr cfg.CLALabelNo w)
          (sprintf "Could not add %s label".toList [cfg.CLALabelNo])
      else w
    let s := signGuide (pathJoin [cl.signURL, cfg.CLAID]) (generateUnSignComment unsigned) faqURL
    logIfFailed (cl.c.CreatePRComment pr s w) "Could not add unsigning comment".toList

def cla.getPrCommitsAbout (cl : cla) (pr : PRInfo) (cfg : CLARepoConfig) (w : World) :
    Except Str CommitMap × World :=
  let isSigned := fun email => cl.IsIndividualSigned cfg.CLAID email
  (cl.c.GetUnsignedCommits pr cfg.CheckByCommitter isSigned,
    { w with calls := w.calls ++ [Call.getUnsignedCommits pr cfg.CheckByCommitter] })

/-- The method `Handle` returns its boolean, its error (`none` for `nil`) and the world it leaves. -/
def cla.Handle (cl : cla) (pr : PRInfo) (labels : Finset Str) (w : World) :
    (Bool × Option Str) × World :=
  match cl.CLAFor pr.Org pr.Repo with
  | none => ((false, some (sprintf "no cla config for this repo:%s/%s".toList [pr.Org, pr.Repo])), w)
  | some cfg =>
    match cl.getPrCommitsAbout pr cfg w with
    | (.error err, w) => ((false, some err), w)
    | (.ok unsigned, w) =>
      let faqURL := if cfg.CheckByCommitter then cl.faqOfCheckingByCommitter
        else cl.faqOfCheckingByAuthor
      let w := cl.handle pr labels cfg unsigned faqURL w
      ((decide (unsigned.length = 0), none), w)

/-! ## Properties stated about the robot -/

/-- At most one of the two status labels is attached. -/
def atMostOneAttached (yes no : Str) (labels : Finset Str) : Prop :=
  (({yes, no} : Finset Str).filter (fun l => l ∈ labels)).card ≤ 1

instance (yes no : Str) (labels : Finset Str) : Decidable (atMostOneAttached yes no labels) := by
  unfold atMostOneAttached; infer_instance

/-- The arguments of one call of `handle`. -/
structure HandleArgs where
  pr : PRInfo
  labels : Finset Str
  cfg : CLARepoConfig
  unsigned : CommitMap
  faqURL : Str

/-- Successive calls of `handle` on the same pull request. -/
def cla.handleAll (cl : cla) : List HandleArgs → World → World
  | [], w => w
  | a :: rest, w => cl.handleAll rest (cl.handle a.pr a.labels a.cfg a.unsigned a.faqURL w)

/-- The number of comments whose text begins with `signGuideTitle` or with
`signGuideTitleOld`. -/
def guidanceCount (comments : List Str) : Nat :=
  comments.countP (fun s => decide (signGuideTitle <+: s ∨ signGuideTitleOld <+: s))

/-- The line of the guidance text for one entry of the map. -/
def unSignLine (e : Str × Str) : Str :=
  "**".toList ++ (if e.1.length > maxLengthOfSHA then e.1.take maxLengthOfSHA else e.1) ++
    "** | ".toList ++ e.2

/-! ## Concrete inputs -/

def examplePR : PRInfo := ⟨"org".toList, "repo".toList, 7⟩

def exampleConfig : CLARepoConfig :=
  ⟨"abc".toList, false, "cla/yes".toList, "cla/no".toList⟩

/-- A client on which every mutating call succeeds. -/
def reliableClient (answer : Except Str CommitMap) : Client :=
  ⟨fun _ _ _ => answer, fun _ _ => true⟩

/-- A client on which `RemovePRLabel` fails and every other mutating call succeeds. -/
def noRemoveClient (answer : Except Str CommitMap) : Client :=
  ⟨fun _ _ _ => answer, fun _ call =>
    match call with
    | .removePRLabel _ _ => false
    | _ => true⟩

def exampleCla (c : Client) : cla :=
  { CLAFor := fun _ _ => some exampleConfig
    IsIndividualSigned := fun _ _ => false
    c := c
    signURL := "https://cla.example.com/sign".toList
    faqOfCheckingByAuthor := "https://faq.example.com/author".toList
    faqOfCheckingByCommitter := "https://faq.example.com/committer".toList }

def freshWorld (labels : Finset Str) : World := ⟨labels, [], [], []⟩

/-! ## The command pattern `CheckCLARe` -/

/-- The runes that a literal ASCII rune of a pattern matches under the flag `i`: its
orbit under Go's `unicode.SimpleFold`. A letter matches its lower and upper case; the
orbit of `k` also holds the Kelvin sign U+212A and that of `s` the long s U+017F. -/
def foldOrbit (l : Char) : List Char :=
  if l.isAlpha then
    [l.toLower, l.toUpper] ++
      (if l.toLower = 'k' then ['K'] else if l.toLower = 's' then ['ſ'] else [])
  else [l]

/-- Whether the rune `r` of the text matches the literal rune `l` under the flag `i`. -/
def foldMatches (l r : Char) : Bool := decide (r ∈ foldOrbit l)

/-- The class `\s` of Go's regexp syntax: `[\t\n\f\r ]`. -/
def isSpace (r : Char) : Bool :=
  r = '\t' || r = '\n' || r = Char.ofNat 12 || r = '\r' || r = ' '

/-- The pieces of a pattern: a literal rune under the flag `i`, a starred class, and
the anchors `^` and `$` under the flag `m`. -/
inductive Item where
  | lit (l : Char)
  | star (cls : Char → Bool)
  | beginLine
  | endLine

/-- A starred class followed by the rest `k` of the pattern: the rest matches here,
or the class takes one more rune. `prev` is the rune before the position. -/
def starThen (cls : Char → Bool) (k : Option Char → Str → Bool) : Option Char → Str → Bool
  | prev, [] => k prev []
  | prev, r :: rs => k prev (r :: rs) || (cls r && starThen cls k (some r) rs)

/-- Whether the pattern matches a piece of the text that starts at the position whose
previous rune is `prev` and whose remaining text is the last argument. `^` holds at
the beginning of the text and after a newline, `$` at the end of the text and before
a newline. -/
def matchItems : List Item → Option Char → Str → Bool
  | [], _, _ => true
  | .lit l :: items, _, r :: rs => foldMatches l r && matchItems items (some r) rs
  | .lit _ :: _, _, [] => false
  | .star cls :: items, prev, s => starThen cls (matchItems items) prev s
  | .beginLine :: items, prev, s =>
    (prev = none || prev = some '\n') && matchItems items prev s
  | .endLine :: items, prev, s =>
    (s = [] || s.head? = some '\n') && matchItems items prev s

/-- The search for a match at every position of the text, from the left. -/
def searchFrom (items : List Item) : Option Char → Str → Bool
  | prev, [] => matchItems items prev []
  | prev, r :: rs => matchItems items prev (r :: rs) || searchFrom items (some r) rs

/-- Go's `(*Regexp).MatchString`: whether the text holds a match of the pattern. The
text is given by its runes. -/
def MatchString (items : List Item) (text : Str) : Bool :=
  searchFrom items none text

/-- The pattern `(?mi)^/check-cla\s*$`. -/
def CheckCLARe : List Item :=
  [Item.beginLine] ++ "/check-cla".toList.map Item.lit ++ [Item.star isSpace, Item.endLine]

/-- The command `/check-cla` written in any letter case: rune by rune, what the
literal runes of the pattern match under the flag `i`. -/
def isCommand (cmd : Str) : Prop :=
  List.Forall₂ (fun l r => foldMatches l r = true) "/check-cla".toList cmd

/-- A line that consists of the command, optionally surrounded by whitespace, and
nothing else. -/
def commandSurrounded (line : Str) : Prop :=
  ∃ pre cmd post, line = pre ++ cmd ++ post ∧ (∀ r ∈ pre, isSpace r = true) ∧
    isCommand cmd ∧ (∀ r ∈ post, isSpace r = true)

/-- A line that consists of the command, optionally followed by whitespace, and
nothing else. -/
def commandThenSpaces (line : Str) : Prop :=
  ∃ cmd post, line = cmd ++ post ∧ isCommand cmd ∧ (∀ r ∈ post, isSpace r = true)

/-- The lines of a text. -/
def textLines (text : Str) : List Str := splitAt '\n' text

/-! ## `controllers/link.go`: data -/

/-- The error codes of package `controllers` that `link.go` names. -/
inductive ApiErrCode where
  | errParsingApiBody
  | errSystemError
  | errLinkExists
  | other (code : Str)
  deriving DecidableEq

/-- The value built by `newFailedApiResult(statusCode, errCode, err)`. -/
structure failedApiResult where
  statusCode : Nat
  errCode : ApiErrCode
  reason : Str
  deriving DecidableEq

def newFailedApiResult (statusCode : Nat) (errCode : ApiErrCode) (err : Str) : failedApiResult :=
  ⟨statusCode, errCode, err⟩

/-- The error codes of package `models` that `link.go` tells apart. -/
inductive ModelErrCode where
  | ErrNoLink
  | other (code : Str)
  deriving DecidableEq

/-- A model error (`models.IModelError`). -/
structure ModelError where
  code : ModelErrCode
  msg : Str
  deriving DecidableEq

def ModelError.IsErrorOf (merr : ModelError) (code : ModelErrCode) : Bool :=
  decide (merr.code = code)

/-- A CLA document of the request (`models.CLACreateOpt`). -/
structure CLACreateOpt where
  Language : Str
  Content : Str
  OrgSignature : Option Str
  deriving DecidableEq

def CLACreateOpt.SetOrgSignature (cla : CLACreateOpt) (data : Str) : CLACreateOpt :=
  { cla with OrgSignature := some data }

/-- The creation request (`models.LinkCreateOption`). -/
structure LinkCreateOption where
  Platform : Str
  OrgID : Str
  RepoID : Str
  OrgEmail : Str
  OrgAlias : Str
  IndividualCLA : Option CLACreateOpt
  CorpCLA : Option CLACreateOpt
  deriving DecidableEq

structure OrgRepo where
  Platform : Str
  OrgID : Str
  RepoID : Str
  deriving DecidableEq

/-- Modelled from the spec: `buildOrgRepo` is not among the sources; the scope of a
link is `{platform, orgID, repoID}`. -/
def buildOrgRepo (platform orgID repoID : Str) : OrgRepo := ⟨platform, orgID, repoID⟩

structure CLAInfo where
  Language : Str
  Hash : Str
  deriving DecidableEq

structure OrgInfo where
  OrgRepo : OrgRepo
  OrgEmail : Str
  OrgAlias : Str
  deriving DecidableEq

/-- The token payload of the request; `link.go` reads its `User`. -/
structure accessToken where
  User : Str
  deriving DecidableEq

/-- Modelled from the spec: the constants `dbmodels.ApplyToCorporation` and
`dbmodels.ApplyToIndividual` are not among the sources; documents are stored by
`applyTo ∈ {corporation, individual}`. -/
def ApplyToCorporation : Str := "corporation".toList

def ApplyToIndividual : Str := "individual".toList

/-- What `Link` does that can be seen from outside, in order. -/
inductive Event where
  | sendFailedResp (doWhat : Str) (fr : failedApiResult)
  | sendResponse (body : Str) (statusCode : Nat)
  | readInputFile (fileName : Str)
  | CreateLockedFile (path : Str)
  | Lock (path : Str) (acquired : Bool)
  | unlock (path : Str)
  | GetLinkID (orgRepo : OrgRepo)
  | SaveCLAAtLocal (path : Str)
  | SaveSignatueAtLocal (path : Str)
  | InitializeIndividualSigning (linkID : Str) (info : Option CLAInfo)
  | InitializeCorpSigning (linkID : Str) (orgInfo : OrgInfo) (info : Option CLAInfo)
  | Create (linkID : Str) (user : Str)
  | logInfo (msg : Str)
  deriving DecidableEq

/-- The document writes, the two signing initialisations and the link record. -/
def Event.isLinkMutation : Event → Bool
  | .SaveCLAAtLocal _ => true
  | .SaveSignatueAtLocal _ => true
  | .InitializeIndividualSigning _ _ => true
  | .InitializeCorpSigning _ _ _ => true
  | .Create _ _ => true
  | _ => false

/-- The responses sent to the caller. -/
def Event.isResponse : Event → Bool
  | .sendFailedResp _ _ => true
  | .sendResponse _ _ => true
  | _ => false

def Event.isUnlock : Event → Bool
  | .unlock _ => true
  | _ => false

/-- The state of one run of `Link`: what it has done so far, and whether it holds
the file lock. -/
structure LinkState where
  trace : List Event
  held : Bool
  deriving DecidableEq

/-- The collaborators of `Link` and the helpers of package `controllers` that are not
among the sources: what each answers. `none` is a `nil` error. -/
structure LinkDeps where
  tokenPayloadBasedOnCodePlatform : Except failedApiResult accessToken
  formData : Str
  fileNameOfUploadingOrgSignatue : Str
  jsonUnmarshal : Str → Except Str LinkCreateOption
  readInputFile : Str → Except failedApiResult Str
  Validate : LinkCreateOption → Option ModelError
  isOwnerOfOrg : accessToken → Str → Option failedApiResult
  genOrgFileLockPath : Str → Str → Str → Str
  CreateLockedFile : Str → Option Str
  Lock : Str → Option Str
  GetLinkID : OrgRepo → Except ModelError Str
  genLinkID : OrgRepo → Str
  genCLAFilePath : Str → Str → Str → Str
  genOrgSignatureFilePath : Str → Str → Str
  SaveCLAAtLocal : CLACreateOpt → Str → Option Str
  SaveSignatueAtLocal : CLACreateOpt → Str → Option Str
  GenCLAInfo : CLACreateOpt → CLAInfo
  InitializeIndividualSigning : Str → Option CLAInfo → Option ModelError
  InitializeCorpSigning : Str → OrgInfo → Option CLAInfo → Option ModelError
  Create : LinkCreateOption → Str → Str → Option ModelError
  parseModelError : ModelError → failedApiResult

/-! ## `controllers/link.go`: functions -/

def LinkState.emit (st : LinkState) (e : Event) : LinkState :=
  { st with trace := st.trace ++ [e] }

/-- The closure `sendResp` made by `newFuncForSendingFailedResp(doWhat)`. -/
def sendResp (doWhat : Str) (fr : failedApiResult) (st : LinkState) : LinkState :=
  st.emit (Event.sendFailedResp doWhat fr)

/-- A successful `util.Lock`: the lock is held from here on. -/
def acquire (path : Str) (st : LinkState) : LinkState :=
  { trace := st.trace ++ [Event.Lock path true], held := true }

/-- The function `unlock` returned by `util.Lock`. -/
def unlock (path : Str) (st : LinkState) : LinkState :=
  { trace := st.trace ++ [Event.unlock path], held := false }

def fetchPayloadOfCreatingLink (d : LinkDeps) : Except Str LinkCreateOption :=
  match d.jsonUnmarshal d.formData with
  | .error err => .error (sprintf "invalid input payload: %s".toList [err])
  | .ok input => .ok input

/-- The first block of `writeLocalFileOfLink`: the corporate CLA and the signature
of the organisation. -/
def writeCorpCLA (d : LinkDeps) (input : LinkCreateOption) (linkID : Str)
    (st : LinkState) : Option failedApiResult × LinkState :=
  match input.CorpCLA with
  | some cla =>
    let path := d.genCLAFilePath linkID ApplyToCorporation cla.Language
    let st := st.emit (Event.SaveCLAAtLocal path)
    match d.SaveCLAAtLocal cla path with
    | some err => (some (newFailedApiResult 500 ApiErrCode.errSystemError err), st)
    | none =>
      let path := d.genOrgSignatureFilePath linkID cla.Language
      let st := st.emit (Event.SaveSignatueAtLocal path)
      match d.SaveSignatueAtLocal cla path with
      | some err => (some (newFailedApiResult 500 ApiErrCode.errSystemError err), st)
      | none => (none, st)
  | none => (none, st)

/-- The second block of `writeLocalFileOfLink`: the individual CLA. -/
def writeIndividualCLA (d : LinkDeps) (input : LinkCreateOption) (linkID : Str)
    (st : LinkState) : Option failedApiResult × LinkState :=
  match input.IndividualCLA with
  | some cla =>
    let path := d.genCLAFilePath linkID ApplyToIndividual cla.Language
    let st := st.emit (Event.SaveCLAAtLocal path)
    match d.SaveCLAAtLocal cla path with
    | some err => (some (newFailedApiResult 500 ApiErrCode.errSystemError err), st)
    | none => (none, st)
  | none => (none, st)

def writeLocalFileOfLink (d : LinkDeps) (input : LinkCreateOption) (linkID : Str)
    (st : LinkState) : Option failedApiResult × LinkState :=
  match writeCorpCLA d input linkID st with
  | (some fr, st) => (some fr, st)
  | (none, st) => writeIndividualCLA d input linkID st

def initializeSigning (d : LinkDeps) (input : LinkCreateOption) (linkID : Str)
    (orgRepo : OrgRepo) (st : LinkState) : Option failedApiResult × LinkState :=
  let info : Option CLAInfo := input.IndividualCLA.map d.GenCLAInfo
  let st := st.emit (Event.InitializeIndividualSigning linkID info)
  match d.InitializeIndividualSigning linkID info with
  | some merr => (some (d.parseModelError merr), st)
  | none =>
    let orgInfo : OrgInfo := ⟨orgRepo, input.OrgEmail, input.OrgAlias⟩
    let info : Option CLAInfo := input.CorpCLA.map d.GenCLAInfo
    let st := st.emit (Event.InitializeCorpSigning linkID orgInfo info)
    match d.InitializeCorpSigning linkID orgInfo info with
    | some merr => (some (d.parseModelError merr), st)
    | none => (none, st)

/-- The part of `Link` that runs with the lock held, from `buildOrgRepo` to the end
of the function body. -/
def linkUnderLock (d : LinkDeps) (doWhat : Str) (pl : accessToken) (input : LinkCreateOption)
    (st : LinkState) : LinkState :=
  let orgRepo := buildOrgRepo input.Platform input.OrgID input.RepoID
  let st := st.emit (Event.GetLinkID orgRepo)
  match d.GetLinkID orgRepo with
  | .ok _ =>
    sendResp doWhat (newFailedApiResult 400 ApiErrCode.errLinkExists "recreate link".toList) st
  | .error merr =>
    if !merr.IsErrorOf ModelErrCode.ErrNoLink then
      sendResp doWhat (d.parseModelError merr) st
    else
      let linkID := d.genLinkID orgRepo
      match writeLocalFileOfLink d input linkID st with
      | (some fr, st) => sendResp doWhat fr st
      | (none, st) =>
        match initializeSigning d input linkID orgRepo st with
        | (some fr, st) => sendResp doWhat fr st
        | (none, st) =>
          let st := st.emit (Event.logInfo "input.Create".toList)
          let st := st.emit (Event.Create linkID pl.User)
          match d.Create input linkID pl.User with
          | some merr => sendResp doWhat (d.parseModelError merr) st
          | none => st.emit (Event.sendResponse "create org cla successfully".toList 0)

/-- The request with the uploaded signature attached to its corporate CLA, or the
failure of reading the upload. -/
def attachOrgSignature (d : LinkDeps) (input : LinkCreateOption) (st : LinkState) :
    Except failedApiResult LinkCreateOption × LinkState :=
  match input.CorpCLA with
  | some cla =>
    let st := st.emit (Event.readInputFile d.fileNameOfUploadingOrgSignatue)
    match d.readInputFile d.fileNameOfUploadingOrgSignatue with
    | .error fr => (.error fr, st)
    | .ok data => (.ok { input with CorpCLA := some (cla.SetOrgSignature data) }, st)
  | none => (.ok input, st)

/-- What `Link` has in hand once `util.Lock` has succeeded. -/
structure Locked where
  pl : accessToken
  input : LinkCreateOption
  filePath : Str
  st : LinkState

/-- The part of `Link` up to `util.Lock`, run from a state in which nothing has been
done and no lock is held: either the run ends here, in the state given, or the lock
has been acquired. -/
def beforeLock (d : LinkDeps) (doWhat : Str) : Except LinkState Locked :=
  let st : LinkState := ⟨[], false⟩
  match d.tokenPayloadBasedOnCodePlatform with
  | .error fr => .error (sendResp doWhat fr st)
  | .ok pl =>
    match fetchPayloadOfCreatingLink d with
    | .error err =>
      .error (sendResp doWhat (newFailedApiResult 400 ApiErrCode.errParsingApiBody err) st)
    | .ok input =>
      match attachOrgSignature d input st with
      | (.error fr, st) => .error (sendResp doWhat fr st)
      | (.ok input, st) =>
        match d.Validate input with
        | some merr => .error (sendResp doWhat (d.parseModelError merr) st)
        | none =>
          match d.isOwnerOfOrg pl input.OrgID with
          | some r => .error (sendResp doWhat r st)
          | none =>
            let filePath := d.genOrgFileLockPath input.Platform input.OrgID input.RepoID
            let st := st.emit (Event.CreateLockedFile filePath)
            match d.CreateLockedFile filePath with
            | some err =>
              .error (sendResp doWhat (newFailedApiResult 500 ApiErrCode.errSystemError err) st)
            | none =>
              match d.Lock filePath with
              | some err =>
                .error (sendResp doWhat (newFailedApiResult 500 ApiErrCode.errSystemError err)
                  (st.emit (Event.Lock filePath false)))
              | none => .ok ⟨pl, input, filePath, acquire filePath st⟩

/-- The handler `LinkController.Link`. The deferred `unlock()` runs when the function body after
`defer unlock()` has ended, on whichever path. -/
def LinkController.Link (d : LinkDeps) : LinkState :=
  let doWhat := "create link".toList
  match beforeLock d doWhat with
  | .error st => st
  | .ok l => unlock l.filePath (linkUnderLock d doWhat l.pl l.input l.st)

/-- An event of the part of `Link` before the lock is held. -/
def Event.isPrelude : Event → Bool
  | .readInputFile _ => true
  | .CreateLockedFile _ => true
  | .Lock _ _ => true
  | _ => false

/-- The state `st'` continues `st`: the lock flag is the same, and what has been
done since holds no `unlock`. -/
def Continues (st st' : LinkState) : Prop :=
  st'.held = st.held ∧
    ∃ added, st'.trace = st.trace ++ added ∧ ∀ e ∈ added, e.isUnlock = false

/-! ## Concrete requests -/

def exampleCLA : CLACreateOpt := ⟨"english".toList, "text".toList, none⟩

def exampleInput : LinkCreateOption :=
  ⟨"github".toList, "orgA".toList, "repo1".toList, "a@x.com".toList, "A".toList,
    some exampleCLA, some exampleCLA⟩

/-- Collaborators that all succeed, but for `GetLinkID`, which answers as given. -/
def exampleDeps (getLinkID : Except ModelError Str) : LinkDeps :=
  { tokenPayloadBasedOnCodePlatform := .ok ⟨"owner".toList⟩
    formData := []
    fileNameOfUploadingOrgSignatue := "signature".toList
    jsonUnmarshal := fun _ => .ok exampleInput
    readInputFile := fun _ => .ok "image".toList
    Validate := fun _ => none
    isOwnerOfOrg := fun _ _ => none
    genOrgFileLockPath := fun p o r => p ++ ['/'] ++ o ++ ['/'] ++ r
    CreateLockedFile := fun _ => none
    Lock := fun _ => none
    GetLinkID := fun _ => getLinkID
    genLinkID := fun o => o.Platform ++ ['-'] ++ o.OrgID ++ ['-'] ++ o.RepoID
    genCLAFilePath := fun l a g => l ++ ['/'] ++ a ++ ['/'] ++ g
    genOrgSignatureFilePath := fun l g => l ++ ['/'] ++ g
    SaveCLAAtLocal := fun _ _ => none
    SaveSignatueAtLocal := fun _ _ => none
    GenCLAInfo := fun c => ⟨c.Language, c.Content⟩
    InitializeIndividualSigning := fun _ _ => none
    InitializeCorpSigning := fun _ _ _ => none
    Create := fun _ _ _ => none
    parseModelError := fun merr => ⟨500, ApiErrCode.other merr.msg, merr.msg⟩ }

/-- What `Link` has in hand on `exampleDeps` once the lock is acquired. -/
def exampleLocked : Locked :=
  { pl := ⟨"owner".toList⟩
    input := { exampleInput with CorpCLA := some (exampleCLA.SetOrgSignature "image".toList) }
    filePath := "github/orgA/repo1".toList
    st := ⟨[Event.readInputFile "signature".toList,
      Event.CreateLockedFile "github/orgA/repo1".toList,
      Event.Lock "github/orgA/repo1".toList true], true⟩ }

/-! ## Labels -/

theorem atMostOneAttached_of_not_mem_left {yes no : Str} {labels : Finset Str}
    (h : yes ∉ labels) : atMostOneAttached yes no labels := by
  unfold atMostOneAttached
  rw [Finset.filter_insert, if_neg h]
  exact (Finset.card_filter_le _ _).trans (by simp)

theorem atMostOneAttached_of_not_mem_right {yes no : Str} {labels : Finset Str}
    (h : no ∉ labels) : atMostOneAttached yes no labels := by
  unfold atMostOneAttached
  rw [Finset.pair_comm, Finset.filter_insert, if_neg h]
  exact (Finset.card_filter_le _ _).trans (by simp)

/-- C6, as stated, fails: on a pull request that carries the label `cla/no`, with an
empty unsigned map and a client whose `RemovePRLabel` fails, `Handle` returns no error
and leaves both status labels attached. -/
theorem Handle_labels_counterexample :
    ((exampleCla (noRemoveClient (.ok []))).Handle examplePR {"cla/no".toList}
        (freshWorld {"cla/no".toList})).1.2 = none ∧
    ¬ atMostOneAttached exampleConfig.CLALabelYes exampleConfig.CLALabelNo
      ((exampleCla (noRemoveClient (.ok []))).Handle examplePR {"cla/no".toList}
        (freshWorld {"cla/no".toList})).2.labels := by
  decide

theorem logIfFailed_labels (r : Bool × World) (msg : Str) :
    (logIfFailed r msg).labels = r.2.labels := by
  unfold logIfFailed logWarning
  split <;> rfl

theorem deleteSignGuide_labels (cl : cla) (pr : PRInfo) (w : World) :
    (cl.deleteSignGuide pr w).labels = w.labels := by
  unfold cla.deleteSignGuide Client.DeletePRComment
  dsimp only
  split <;> rfl

theorem CreatePRComment_labels (c : Client) (pr : PRInfo) (t : Str) (w : World) :
    (c.CreatePRComment pr t w).2.labels = w.labels := by
  unfold Client.CreatePRComment
  dsimp only
  split <;> rfl

theorem AddPRLabel_mem (c : Client) (pr : PRInfo) (l x : Str) (w : World)
    (h : x ∈ (c.AddPRLabel pr l w).2.labels) : x = l ∨ x ∈ w.labels := by
  unfold Client.AddPRLabel at h
  dsimp only at h
  split at h
  · simpa using h
  · exact Or.inr h

theorem RemovePRLabel_mem (c : Client) (pr : PRInfo) (l x : Str) (w : World)
    (h : x ∈ (c.RemovePRLabel pr l w).2.labels) : x ∈ w.labels := by
  unfold Client.RemovePRLabel at h
  dsimp only at h
  split at h
  · exact Finset.mem_of_mem_erase h
  · exact h

theorem RemovePRLabel_not_mem (c : Client) (pr : PRInfo) (l : Str) (w : World)
    (hok : c.succeeds w.calls (Call.removePRLabel pr l) = true) :
    l ∉ (c.RemovePRLabel pr l w).2.labels := by
  unfold Client.RemovePRLabel
  simp [hok]

/-- What `handle` leaves of a label that it removes when attached and never adds. -/
theorem removed_label_absent (c : Client) (pr : PRInfo) (gone kept : Str) (m1 m2 : Str)
    (w : World) (had hasKept : Bool) (hhad : had = decide (gone ∈ w.labels))
    (hne : gone ≠ kept)
    (hrm : ∀ hist p l, c.succeeds hist (Call.removePRLabel p l) = true) :
    gone ∉ (if (!hasKept) = true then
        logIfFailed (c.AddPRLabel pr kept
          (if had = true then logIfFailed (c.RemovePRLabel pr gone w) m1 else w)) m2
      else (if had = true then logIfFailed (c.RemovePRLabel pr gone w) m1 else w)).labels := by
  have h1 : gone ∉ (if had = true then logIfFailed (c.RemovePRLabel pr gone w) m1 else w).labels := by
    split
    · rw [logIfFailed_labels]
      exact RemovePRLabel_not_mem c pr gone w (hrm _ _ _)
    · rename_i h
      simpa [hhad] using h
  split
  · rw [logIfFailed_labels]
    intro hmem
    rcases AddPRLabel_mem _ _ _ _ _ hmem with h | h
    · exact hne h
    · exact h1 h
  · exact h1

/-- C6, amended: when the labels of the pull request are the `labels` argument on
entry and no `RemovePRLabel` call fails (`AddPRLabel` and the comment calls may fail),
after a `Handle` call that returns no error at most one of the two status labels is
attached. -/
theorem Handle_at_most_one_label (cl : cla) (pr : PRInfo) (labels : Finset Str) (w : World)
    (hw : w.labels = labels)
    (hrm : ∀ hist p l, cl.c.succeeds hist (Call.removePRLabel p l) = true)
    (hret : (cl.Handle pr labels w).1.2 = none) :
    ∃ cfg, cl.CLAFor pr.Org pr.Repo = some cfg ∧
      atMostOneAttached cfg.CLALabelYes cfg.CLALabelNo (cl.Handle pr labels w).2.labels := by
  subst hw
  unfold cla.Handle at hret ⊢
  cases hc : cl.CLAFor pr.Org pr.Repo with
  | none => simp [hc] at hret
  | some cfg =>
    refine ⟨cfg, rfl, ?_⟩
    cases hg : cl.c.GetUnsignedCommits pr cfg.CheckByCommitter
        (fun email => cl.IsIndividualSigned cfg.CLAID email) with
    | error e => simp [hc, cla.getPrCommitsAbout, hg] at hret
    | ok unsigned =>
      simp only [cla.getPrCommitsAbout, hg]
      by_cases hne : cfg.CLALabelYes = cfg.CLALabelNo
      · unfold atMostOneAttached
        rw [hne]
        exact (Finset.card_filter_le _ _).trans (by simp)
      by_cases hu : unsigned.length = 0
      · apply atMostOneAttached_of_not_mem_right
        simp only [cla.handle, hu, if_true]
        exact removed_label_absent cl.c pr _ _ _ _ _ _ _
          (by rw [deleteSignGuide_labels]) (fun h => hne h.symm) hrm
      · apply atMostOneAttached_of_not_mem_left
        simp only [cla.handle, hu, if_false]
        rw [logIfFailed_labels, CreatePRComment_labels]
        exact removed_label_absent cl.c pr _ _ _ _ _ _ _
          (by rw [deleteSignGuide_labels]) hne hrm

theorem AddPRLabel_labels (c : Client) (pr : PRInfo) (l : Str) (w : World)
    (hok : c.succeeds w.calls (Call.addPRLabel pr l) = true) :
    (c.AddPRLabel pr l w).2.labels = insert l w.labels := by
  unfold Client.AddPRLabel
  simp [hok]

theorem RemovePRLabel_labels (c : Client) (pr : PRInfo) (l : Str) (w : World)
    (hok : c.succeeds w.calls (Call.removePRLabel pr l) = true) :
    (c.RemovePRLabel pr l w).2.labels = w.labels.erase l := by
  unfold Client.RemovePRLabel
  simp [hok]

/-- The labels that the two label steps of `handle` leave when they succeed: `gone` is
removed when it was attached, `kept` is added when it was not. -/
theorem label_steps (c : Client) (pr : PRInfo) (gone kept : Str) (m1 m2 : Str) (w : World)
    (hadd : ∀ hist p l, c.succeeds hist (Call.addPRLabel p l) = true)
    (hrm : ∀ hist p l, c.succeeds hist (Call.removePRLabel p l) = true) :
    (if (!decide (kept ∈ w.labels)) = true then
        logIfFailed (c.AddPRLabel pr kept
          (if decide (gone ∈ w.labels) = true then logIfFailed (c.RemovePRLabel pr gone w) m1
            else w)) m2
      else (if decide (gone ∈ w.labels) = true then logIfFailed (c.RemovePRLabel pr gone w) m1
        else w)).labels = insert kept (w.labels.erase gone) ∨
    (kept ∈ w.labels ∧
      (if (!decide (kept ∈ w.labels)) = true then
        logIfFailed (c.AddPRLabel pr kept
          (if decide (gone ∈ w.labels) = true then logIfFailed (c.RemovePRLabel pr gone w) m1
            else w)) m2
      else (if decide (gone ∈ w.labels) = true then logIfFailed (c.RemovePRLabel pr gone w) m1
        else w)).labels = w.labels.erase gone) := by
  have h1 : (if decide (gone ∈ w.labels) = true then
      logIfFailed (c.RemovePRLabel pr gone w) m1 else w).labels = w.labels.erase gone := by
    split
    · rw [logIfFailed_labels, RemovePRLabel_labels _ _ _ _ (hrm _ _ _)]
    · rename_i h
      rw [Finset.erase_eq_of_not_mem (by simpa using h)]
  by_cases hk : kept ∈ w.labels
  · right
    refine ⟨hk, ?_⟩
    rw [if_neg (by simp [hk])]
    exact h1
  · left
    rw [if_pos (by simp [hk]), logIfFailed_labels, AddPRLabel_labels _ _ _ _ (hadd _ _ _), h1]

/-- C1: when the two status labels differ, the labels of the pull request are the
`labels` argument on entry and the label calls succeed, after `handle` (i) an empty
unsigned map leaves `CLALabelYes` attached and `CLALabelNo` not, (ii) a non-empty one
leaves `CLALabelNo` attached and `CLALabelYes` not, and (iii) every other label is
attached exactly as before. -/
theorem handle_labels (cl : cla) (pr : PRInfo) (labels : Finset Str) (cfg : CLARepoConfig)
    (unsigned : CommitMap) (faqURL : Str) (w : World)
    (hne : cfg.CLALabelYes ≠ cfg.CLALabelNo) (hw : w.labels = labels)
    (hadd : ∀ hist p l, cl.c.succeeds hist (Call.addPRLabel p l) = true)
    (hrm : ∀ hist p l, cl.c.succeeds hist (Call.removePRLabel p l) = true) :
    (unsigned = [] →
      cfg.CLALabelYes ∈ (cl.handle pr labels cfg unsigned faqURL w).labels ∧
      cfg.CLALabelNo ∉ (cl.handle pr labels cfg unsigned faqURL w).labels) ∧
    (unsigned ≠ [] →
      cfg.CLALabelNo ∈ (cl.handle pr labels cfg unsigned faqURL w).labels ∧
      cfg.CLALabelYes ∉ (cl.handle pr labels cfg unsigned faqURL w).labels) ∧
    (∀ l, l ≠ cfg.CLALabelYes → l ≠ cfg.CLALabelNo →
      (l ∈ (cl.handle pr labels cfg unsigned faqURL w).labels ↔ l ∈ labels)) := by
  subst hw
  have hne' : cfg.CLALabelNo ≠ cfg.CLALabelYes := fun h => hne h.symm
  have hd := deleteSignGuide_labels cl pr w
  have hE : unsigned.length = 0 →
      (cl.handle pr w.labels cfg unsigned faqURL w).labels =
          insert cfg.CLALabelYes (w.labels.erase cfg.CLALabelNo) ∨
        (cfg.CLALabelYes ∈ w.labels ∧
          (cl.handle pr w.labels cfg unsigned faqURL w).labels =
            w.labels.erase cfg.CLALabelNo) := by
    intro hu
    have := label_steps cl.c pr cfg.CLALabelNo cfg.CLALabelYes
      (sprintf "Could not remove %s label".toList [cfg.CLALabelNo])
      (sprintf "Could not add %s label".toList [cfg.CLALabelYes])
      (cl.deleteSignGuide pr w) hadd hrm
    rw [hd] at this
    simpa only [cla.handle, hu, if_true] using this
  have hN : unsigned.length ≠ 0 →
      (cl.handle pr w.labels cfg unsigned faqURL w).labels =
          insert cfg.CLALabelNo (w.labels.erase cfg.CLALabelYes) ∨
        (cfg.CLALabelNo ∈ w.labels ∧
          (cl.handle pr w.labels cfg unsigned faqURL w).labels =
            w.labels.erase cfg.CLALabelYes) := by
    intro hu
    have := label_steps cl.c pr cfg.CLALabelYes cfg.CLALabelNo
      (sprintf "Could not remove %s label".toList [cfg.CLALabelYes])
      (sprintf "Could not add %s label".toList [cfg.CLALabelNo])
      (cl.deleteSignGuide pr w) hadd hrm
    rw [hd] at this
    simpa only [cla.handle, hu, if_false, logIfFailed_labels, CreatePRComment_labels]
      using this
  refine ⟨?_, ?_, ?_⟩
  · intro hu
    rcases hE (by simp [hu]) with h | ⟨hy, h⟩ <;> rw [h]
    · simp [hne']
    · simp [hy, hne]
  · intro hu
    rcases hN (by simpa using hu) with h | ⟨hn, h⟩ <;> rw [h]
    · simp [hne]
    · simp [hn, hne']
  · intro l h1 h2
    by_cases hu : unsigned.length = 0
    · rcases hE hu with h | ⟨_, h⟩ <;> rw [h] <;> simp [h1, h2]
    · rcases hN hu with h | ⟨_, h⟩ <;> rw [h] <;> simp [h1, h2]

theorem handle_labels_witness :
    exampleConfig.CLALabelYes ≠ exampleConfig.CLALabelNo ∧
    (freshWorld {"cla/no".toList, "kind/bug".toList}).labels = {"cla/no".toList, "kind/bug".toList} ∧
    exampleConfig.CLALabelYes ∈ ((exampleCla (reliableClient (.ok []))).handle examplePR
      {"cla/no".toList, "kind/bug".toList} exampleConfig [] []
      (freshWorld {"cla/no".toList, "kind/bug".toList})).labels ∧
    exampleConfig.CLALabelNo ∉ ((exampleCla (reliableClient (.ok []))).handle examplePR
      {"cla/no".toList, "kind/bug".toList} exampleConfig [] []
      (freshWorld {"cla/no".toList, "kind/bug".toList})).labels :=
  ⟨by decide, rfl,
    (handle_labels (exampleCla (reliableClient (.ok []))) examplePR
      {"cla/no".toList, "kind/bug".toList} exampleConfig [] []
      (freshWorld {"cla/no".toList, "kind/bug".toList}) (by decide) rfl (fun _ _ _ => rfl)
      (fun _ _ _ => rfl)).1 rfl⟩

theorem Handle_at_most_one_label_witness :
    (freshWorld {"cla/no".toList}).labels = {"cla/no".toList} ∧
    ((exampleCla (reliableClient (.ok []))).Handle examplePR {"cla/no".toList}
      (freshWorld {"cla/no".toList})).1.2 = none ∧
    ∃ cfg, (exampleCla (reliableClient (.ok []))).CLAFor examplePR.Org examplePR.Repo = some cfg ∧
      atMostOneAttached cfg.CLALabelYes cfg.CLALabelNo
        ((exampleCla (reliableClient (.ok []))).Handle examplePR {"cla/no".toList}
          (freshWorld {"cla/no".toList})).2.labels :=
  ⟨rfl, rfl, Handle_at_most_one_label (exampleCla (reliableClient (.ok []))) examplePR
    {"cla/no".toList} (freshWorld {"cla/no".toList}) rfl (fun _ _ _ => rfl) rfl⟩

/-! ## Guidance comment -/

theorem hasPrefix_iff (s pre : Str) : hasPrefix s pre = true ↔ pre <+: s := by
  unfold hasPrefix
  rw [List.prefix_iff_eq_take]
  constructor
  · intro h
    simp only [Bool.and_eq_true, decide_eq_true_eq] at h
    exact h.2.symm
  · intro h
    simp only [Bool.and_eq_true, decide_eq_true_eq]
    refine ⟨?_, h.symm⟩
    have := congrArg List.length h
    rw [List.length_take] at this
    omega

theorem isSignGuide_iff (s : Str) :
    isSignGuide s = true ↔ (signGuideTitle <+: s ∨ signGuideTitleOld <+: s) := by
  unfold isSignGuide
  rw [Bool.or_eq_true, hasPrefix_iff, hasPrefix_iff]

theorem guidanceCount_eq (comments : List Str) :
    guidanceCount comments = comments.countP isSignGuide := by
  unfold guidanceCount
  refine congrArg (fun p => List.countP p comments) (funext fun s => ?_)
  rw [Bool.eq_iff_iff, decide_eq_true_iff, isSignGuide_iff]

theorem sprintf_verb (rest a : Str) (as : List Str) :
    sprintf ('%' :: 's' :: rest) (a :: as) = a ++ sprintf rest as := by
  simp [sprintf]

set_option maxRecDepth 8192 in
theorem signGuideFormat_head : signGuideFormat = '%' :: 's' :: signGuideFormat.drop 2 := by
  decide

theorem signGuide_begins (signURL cInfo faq : Str) :
    signGuideTitle <+: signGuide signURL cInfo faq := by
  unfold signGuide
  rw [signGuideFormat_head, sprintf_verb]
  exact List.prefix_append _ _

theorem logIfFailed_comments (r : Bool × World) (msg : Str) :
    (logIfFailed r msg).comments = r.2.comments := by
  unfold logIfFailed logWarning
  split <;> rfl

theorem AddPRLabel_comments (c : Client) (pr : PRInfo) (l : Str) (w : World) :
    (c.AddPRLabel pr l w).2.comments = w.comments := by
  unfold Client.AddPRLabel
  dsimp only
  split <;> rfl

theorem RemovePRLabel_comments (c : Client) (pr : PRInfo) (l : Str) (w : World) :
    (c.RemovePRLabel pr l w).2.comments = w.comments := by
  unfold Client.RemovePRLabel
  dsimp only
  split <;> rfl

/-- The comments that `handle` leaves when the comment calls succeed. -/
theorem handle_comments (cl : cla) (a : HandleArgs) (w : World)
    (hdel : ∀ hist p, cl.c.succeeds hist (Call.deletePRComment p) = true)
    (hnew : ∀ hist p t, cl.c.succeeds hist (Call.createPRComment p t) = true) :
    (cl.handle a.pr a.labels a.cfg a.unsigned a.faqURL w).comments =
      w.comments.filter (fun s => !isSignGuide s) ++
        (if a.unsigned.length = 0 then []
         else [signGuide (pathJoin [cl.signURL, a.cfg.CLAID])
            (generateUnSignComment a.unsigned) a.faqURL]) := by
  have hd : (cl.deleteSignGuide a.pr w).comments = w.comments.filter (fun s => !isSignGuide s) := by
    simp [cla.deleteSignGuide, Client.DeletePRComment, hdel]
  unfold cla.handle
  by_cases hu : a.unsigned.length = 0
  · simp only [hu, if_true, List.append_nil]
    rw [← hd]
    split <;> split <;>
      simp only [logIfFailed_comments, AddPRLabel_comments, RemovePRLabel_comments]
  · simp only [hu, if_false]
    rw [← hd, logIfFailed_comments]
    unfold Client.CreatePRComment
    simp only [hnew, if_true]
    congr 1
    split <;> split <;>
      simp only [logIfFailed_comments, AddPRLabel_comments, RemovePRLabel_comments]

/-- C3: when the comment calls succeed, after every call of `handle` in every sequence
of calls, from every initial list of comments, at most one comment begins with
`signGuideTitle` or `signGuideTitleOld`: exactly one when the unsigned map of that call
is non-empty and none when it is empty. The text built by `signGuide` begins with
`signGuideTitle`. -/
theorem guidance_comment_lifecycle (cl : cla) (w : World) (before : List HandleArgs)
    (a : HandleArgs)
    (hdel : ∀ hist p, cl.c.succeeds hist (Call.deletePRComment p) = true)
    (hnew : ∀ hist p t, cl.c.succeeds hist (Call.createPRComment p t) = true) :
    guidanceCount (cl.handle a.pr a.labels a.cfg a.unsigned a.faqURL
      (cl.handleAll before w)).comments ≤ 1 ∧
    (a.unsigned ≠ [] → guidanceCount (cl.handle a.pr a.labels a.cfg a.unsigned a.faqURL
      (cl.handleAll before w)).comments = 1) ∧
    (a.unsigned = [] → guidanceCount (cl.handle a.pr a.labels a.cfg a.unsigned a.faqURL
      (cl.handleAll before w)).comments = 0) ∧
    (∀ signURL cInfo faq, signGuideTitle <+: signGuide signURL cInfo faq) := by
  have hz : (List.filter (fun s => !isSignGuide s) (cl.handleAll before w).comments).countP
      isSignGuide = 0 := by
    rw [List.countP_eq_zero]
    intro s hs
    simpa using (List.mem_filter.mp hs).2
  have key : guidanceCount (cl.handle a.pr a.labels a.cfg a.unsigned a.faqURL
      (cl.handleAll before w)).comments = if a.unsigned.length = 0 then 0 else 1 := by
    rw [handle_comments cl a _ hdel hnew, guidanceCount_eq, List.countP_append, hz]
    split
    · rfl
    · have := (isSignGuide_iff _).mpr (Or.inl (signGuide_begins (pathJoin [cl.signURL, a.cfg.CLAID])
        (generateUnSignComment a.unsigned) a.faqURL))
      simp [List.countP_cons, this]
  refine ⟨?_, ?_, ?_, signGuide_begins⟩
  · rw [key]; split <;> omega
  · intro h
    rw [key, if_neg (by simpa using h)]
  · intro h
    rw [key, if_pos (by simp [h])]


theorem guidance_comment_lifecycle_witness :
    guidanceCount ((exampleCla (reliableClient (.ok []))).handle examplePR ∅ exampleConfig
      [("abcdef1234".toList, "m".toList)] []
      ((exampleCla (reliableClient (.ok []))).handleAll
        [⟨examplePR, ∅, exampleConfig, [("abcdef1234".toList, "m".toList)], []⟩]
        ⟨∅, [signGuideTitleOld, signGuideTitle, signGuideTitle ++ "x".toList], [], []⟩)).comments
      = 1 :=
  (guidance_comment_lifecycle (exampleCla (reliableClient (.ok []))) _ _
    ⟨examplePR, ∅, exampleConfig, [("abcdef1234".toList, "m".toList)], []⟩
    (fun _ _ => rfl) (fun _ _ _ => rfl)).2.1 (by simp)

/-! ## Return contract of `Handle` -/

/-- C2: `Handle` returns an error exactly when there is no configuration for the
repository or `GetUnsignedCommits` fails; it then returns `false`, leaves labels and
comments as they were and makes no mutating call. Otherwise it returns no error and
the boolean `len(unsigned) == 0`, whichever mutating calls fail. -/
theorem Handle_return_contract (cl : cla) (pr : PRInfo) (labels : Finset Str) (w : World) :
    ((cl.Handle pr labels w).1.2 ≠ none ↔
      (cl.CLAFor pr.Org pr.Repo = none ∨
        ∃ cfg err, cl.CLAFor pr.Org pr.Repo = some cfg ∧
          cl.c.GetUnsignedCommits pr cfg.CheckByCommitter
            (fun email => cl.IsIndividualSigned cfg.CLAID email) = .error err)) ∧
    ((cl.Handle pr labels w).1.2 ≠ none →
      (cl.Handle pr labels w).1.1 = false ∧
      (cl.Handle pr labels w).2.labels = w.labels ∧
      (cl.Handle pr labels w).2.comments = w.comments ∧
      ∃ made, (cl.Handle pr labels w).2.calls = w.calls ++ made ∧
        ∀ call ∈ made, call.isMutation = false) ∧
    ((cl.Handle pr labels w).1.2 = none →
      ∃ cfg unsigned, cl.CLAFor pr.Org pr.Repo = some cfg ∧
        cl.c.GetUnsignedCommits pr cfg.CheckByCommitter
          (fun email => cl.IsIndividualSigned cfg.CLAID email) = .ok unsigned ∧
        (cl.Handle pr labels w).1.1 = decide (unsigned.length = 0)) := by
  unfold cla.Handle cla.getPrCommitsAbout
  cases hc : cl.CLAFor pr.Org pr.Repo with
  | none =>
    refine ⟨by simp, fun _ => ⟨rfl, rfl, rfl, [], by simp, by simp⟩, by simp⟩
  | some cfg =>
    dsimp only
    cases hg : cl.c.GetUnsignedCommits pr cfg.CheckByCommitter
        (fun email => cl.IsIndividualSigned cfg.CLAID email) with
    | error e =>
      refine ⟨by simp [hg], fun _ => ⟨rfl, rfl, rfl,
        [Call.getUnsignedCommits pr cfg.CheckByCommitter], rfl, by simp [Call.isMutation]⟩, by simp⟩
    | ok unsigned =>
      refine ⟨by simp [hg], by simp, fun _ => ⟨cfg, unsigned, rfl, hg, rfl⟩⟩

/-! ## Guidance text -/

theorem sprintf_line (sha msg : Str) :
    sprintf "**%s** | %s".toList [sha, msg] = "**".toList ++ sha ++ "** | ".toList ++ msg := by
  simp [sprintf]

theorem unSignLines_eq (commits : CommitMap) (cs : List Str) :
    unSignLines commits cs = cs ++ commits.map unSignLine := by
  induction commits generalizing cs with
  | nil => simp [unSignLines]
  | cons e rest ih =>
    obtain ⟨sha, msg⟩ := e
    rw [unSignLines, ih, sprintf_line]
    simp [unSignLine]

theorem stringsJoin_eq (ls : List Str) (sep : Str) :
    stringsJoin ls sep = List.intercalate sep ls := by
  induction ls with
  | nil => rfl
  | cons a rest ih =>
    cases rest with
    | nil => simp [stringsJoin, List.intercalate]
    | cons b rest' =>
      rw [stringsJoin, ih]
      simp [List.intercalate, List.append_assoc]

/-- C4: the text of `generateUnSignComment` is empty for the empty map; it is the
newline-joined list of one line per entry, in the order of the entries, of the form
`**<s>** | <message>`, where `<s>` is the SHA when its length is at most 8 and its
first 8 bytes, so of length 8, when it is longer. The map `abcdef1234 ↦ m` gives
`**abcdef12** | m`. -/
theorem generateUnSignComment_text (commits : CommitMap) :
    (commits = [] → generateUnSignComment commits = []) ∧
    (∃ lines : List Str,
      List.Forall₂ (fun (e : Str × Str) (line : Str) =>
        ∃ s : Str, line = "**".toList ++ s ++ "** | ".toList ++ e.2 ∧
          (e.1.length ≤ 8 → s = e.1) ∧
          (8 < e.1.length → s = e.1.take 8 ∧ s.length = 8)) commits lines ∧
      generateUnSignComment commits = List.intercalate "\n".toList lines) ∧
    (∀ m : Str, generateUnSignComment [("abcdef1234".toList, m)] = "**abcdef12** | ".toList ++ m) := by
  refine ⟨?_, ⟨commits.map unSignLine, ?_, ?_⟩, ?_⟩
  · intro h
    simp [generateUnSignComment, h]
  · rw [List.forall₂_map_right_iff]
    apply List.forall₂_same.mpr
    intro e _
    refine ⟨if e.1.length > maxLengthOfSHA then e.1.take maxLengthOfSHA else e.1, rfl, ?_, ?_⟩
    · intro h
      rw [if_neg (by unfold maxLengthOfSHA; omega)]
    · intro h
      rw [if_pos (by unfold maxLengthOfSHA; omega)]
      refine ⟨rfl, ?_⟩
      rw [List.length_take]
      unfold maxLengthOfSHA
      omega
  · unfold generateUnSignComment
    split
    · rename_i h
      have : commits = [] := List.length_eq_zero.mp h
      subst this
      rfl
    · rw [unSignLines_eq, stringsJoin_eq]
      rfl
  · intro m
    simp [generateUnSignComment, unSignLines, stringsJoin, maxLengthOfSHA, sprintf]

/-! ## Command pattern -/

theorem splitAt_eq_cons (sep : Char) (s : Str) :
    ∃ rest, splitAt sep s = s.takeWhile (fun r => r != sep) :: rest := by
  induction s with
  | nil => exact ⟨[], rfl⟩
  | cons c cs ih =>
    obtain ⟨rest, hrest⟩ := ih
    by_cases hc : c = sep
    · exact ⟨splitAt sep cs, by simp [splitAt, hc]⟩
    · exact ⟨rest, by simp [splitAt, hc, hrest]⟩

theorem starThen_iff (cls : Char → Bool) (k : Option Char → Str → Bool)
    (hk : ∀ p q s, k p s = k q s) (prev : Option Char) (s : Str) :
    starThen cls k prev s = true ↔
      ∃ ws tail, s = ws ++ tail ∧ (∀ r ∈ ws, cls r = true) ∧ k none tail = true := by
  induction s generalizing prev with
  | nil =>
    rw [starThen, hk prev none]
    constructor
    · intro h
      exact ⟨[], [], rfl, by simp, h⟩
    · rintro ⟨ws, tail, h, -, hkt⟩
      have : tail = [] := (List.append_eq_nil.mp h.symm).2
      rwa [this] at hkt
  | cons r rs ih =>
    rw [starThen, Bool.or_eq_true, Bool.and_eq_true, ih, hk prev none]
    constructor
    · rintro (h | ⟨hr, ws, tail, hs, hws, hkt⟩)
      · exact ⟨[], r :: rs, rfl, by simp, h⟩
      · refine ⟨r :: ws, tail, by rw [hs]; rfl, ?_, hkt⟩
        intro x hx
        rcases List.mem_cons.mp hx with rfl | hx
        · exact hr
        · exact hws x hx
    · rintro ⟨ws, tail, hs, hws, hkt⟩
      cases ws with
      | nil =>
        left
        rw [List.nil_append] at hs
        rwa [hs]
      | cons x ws' =>
        right
        rw [List.cons_append, List.cons.injEq] at hs
        obtain ⟨rfl, rfl⟩ := hs
        exact ⟨hws _ (List.mem_cons_self _ _), ws', tail, rfl,
          fun y hy => hws y (List.mem_cons_of_mem _ hy), hkt⟩

theorem matchItems_lits_iff (lits : List Char) (rest : List Item)
    (hrest : ∀ p q s, matchItems rest p s = matchItems rest q s) (prev : Option Char) (s : Str) :
    matchItems (lits.map Item.lit ++ rest) prev s = true ↔
      ∃ cmd tail, s = cmd ++ tail ∧
        List.Forall₂ (fun l r => foldMatches l r = true) lits cmd ∧
        matchItems rest none tail = true := by
  induction lits generalizing prev s with
  | nil =>
    rw [List.map_nil, List.nil_append, hrest prev none]
    constructor
    · intro h
      exact ⟨[], s, rfl, List.Forall₂.nil, h⟩
    · rintro ⟨cmd, tail, hs, hf, ht⟩
      cases hf
      rwa [hs]
  | cons l ls ih =>
    cases s with
    | nil =>
      have e : matchItems (List.map Item.lit (l :: ls) ++ rest) prev [] = false := rfl
      rw [e]
      constructor
      · intro h
        exact absurd h (by simp)
      · rintro ⟨cmd, tail, hs, hf, -⟩
        cases hf
        simp at hs
    | cons r rs =>
      have e : matchItems (List.map Item.lit (l :: ls) ++ rest) prev (r :: rs) =
          (foldMatches l r && matchItems (List.map Item.lit ls ++ rest) (some r) rs) := rfl
      rw [e, Bool.and_eq_true, ih]
      constructor
      · rintro ⟨hr, cmd, tail, hs, hf, ht⟩
        exact ⟨r :: cmd, tail, by rw [hs]; rfl, List.Forall₂.cons hr hf, ht⟩
      · rintro ⟨cmd, tail, hs, hf, ht⟩
        cases hf with
        | cons hr hf' =>
          rw [List.cons_append, List.cons.injEq] at hs
          obtain ⟨rfl, rfl⟩ := hs
          exact ⟨hr, _, tail, rfl, hf', ht⟩

theorem endLine_indep (p q : Option Char) (s : Str) :
    matchItems [Item.endLine] p s = matchItems [Item.endLine] q s := rfl

theorem endLine_iff (p : Option Char) (s : Str) :
    matchItems [Item.endLine] p s = true ↔ (s = [] ∨ s.head? = some '\n') := by
  simp [matchItems]

theorem tail_indep (p q : Option Char) (s : Str) :
    matchItems [Item.star isSpace, Item.endLine] p s =
      matchItems [Item.star isSpace, Item.endLine] q s := by
  rw [Bool.eq_iff_iff]
  show starThen isSpace (matchItems [Item.endLine]) p s = true ↔
    starThen isSpace (matchItems [Item.endLine]) q s = true
  rw [starThen_iff _ _ endLine_indep, starThen_iff _ _ endLine_indep]

theorem command_no_newline (cmd : Str) (h : isCommand cmd) :
    ∀ r ∈ cmd, (r != '\n') = true := by
  unfold isCommand at h
  have hl : ∀ l ∈ "/check-cla".toList, foldMatches l '\n' = false := by decide
  generalize "/check-cla".toList = lits at h hl
  induction h with
  | nil => simp
  | @cons l r ls rs hr _ ih =>
    intro x hx
    rcases List.mem_cons.mp hx with rfl | hx
    · have h1 := hl l (List.mem_cons_self _ _)
      by_cases hx' : x = '\n'
      · rw [hx'] at hr
        rw [hr] at h1
        exact absurd h1 (by simp)
      · simpa using hx'
    · exact ih (fun l' hl' => hl l' (List.mem_cons_of_mem _ hl')) x hx

/-- The pattern without its `^`. -/
theorem body_iff (prev : Option Char) (s : Str) :
    matchItems ("/check-cla".toList.map Item.lit ++ [Item.star isSpace, Item.endLine]) prev s
        = true ↔
      commandThenSpaces (s.takeWhile (fun r => r != '\n')) := by
  rw [matchItems_lits_iff _ _ tail_indep]
  constructor
  · rintro ⟨cmd, tail1, hs, hcmd, ht⟩
    have ht' : starThen isSpace (matchItems [Item.endLine]) none tail1 = true := ht
    rw [starThen_iff _ _ endLine_indep] at ht'
    obtain ⟨ws, tail, htail1, hws, hend⟩ := ht'
    rw [endLine_iff] at hend
    have hnil : List.takeWhile (fun r => r != '\n') tail = [] := by
      rcases hend with h | h
      · rw [h]; rfl
      · cases tail with
        | nil => rfl
        | cons c cs =>
          simp only [List.head?_cons, Option.some.injEq] at h
          simp [List.takeWhile_cons, h]
    refine ⟨cmd, List.takeWhile (fun r => r != '\n') tail1, ?_, hcmd, ?_⟩
    · rw [hs, List.takeWhile_append_of_pos (command_no_newline cmd hcmd)]
    · intro r hr
      rw [htail1, List.takeWhile_append, hnil, List.append_nil] at hr
      split at hr
      · exact hws r hr
      · exact hws r ((List.takeWhile_sublist _).subset hr)
  · rintro ⟨cmd, post, hline, hcmd, hpost⟩
    refine ⟨cmd, post ++ s.dropWhile (fun r => r != '\n'), ?_, hcmd, ?_⟩
    · rw [← List.append_assoc, ← hline, List.takeWhile_append_dropWhile]
    · show starThen isSpace (matchItems [Item.endLine]) none _ = true
      rw [starThen_iff _ _ endLine_indep]
      refine ⟨post, _, rfl, hpost, ?_⟩
      rw [endLine_iff]
      have h := List.head?_dropWhile_not (fun r => r != '\n') s
      cases hd : (List.dropWhile (fun r => r != '\n') s) with
      | nil => exact Or.inl rfl
      | cons c cs =>
        right
        rw [hd] at h
        simp only [List.head?_cons] at h
        simp only [List.head?_cons, Option.some.injEq]
        simpa using h

theorem textLines_newline (cs : Str) : textLines ('\n' :: cs) = [] :: textLines cs := by
  simp [textLines, splitAt]

theorem textLines_other (c : Char) (cs : Str) (hc : c ≠ '\n') :
    textLines (c :: cs) =
      (c :: cs.takeWhile (fun r => r != '\n')) :: (textLines cs).tail := by
  obtain ⟨rest, hrest⟩ := splitAt_eq_cons '\n' cs
  simp [textLines, splitAt, hc, hrest]

theorem textLines_eq (s : Str) :
    textLines s = s.takeWhile (fun r => r != '\n') :: (textLines s).tail := by
  obtain ⟨rest, hrest⟩ := splitAt_eq_cons '\n' s
  simp [textLines, hrest]

theorem matchItems_CheckCLARe_iff (p : Option Char) (t : Str) :
    matchItems CheckCLARe p t = true ↔
      ((p = none ∨ p = some '\n') ∧
        commandThenSpaces (t.takeWhile (fun r => r != '\n'))) := by
  have e : matchItems CheckCLARe p t = ((p = none || p = some '\n') &&
    matchItems ("/check-cla".toList.map Item.lit ++ [Item.star isSpace, Item.endLine]) p t) := rfl
  rw [e, Bool.and_eq_true, body_iff]
  simp

theorem searchFrom_iff (prev : Option Char) (s : Str) :
    searchFrom CheckCLARe prev s = true ↔
      ((prev = none ∨ prev = some '\n') ∧
          commandThenSpaces (s.takeWhile (fun r => r != '\n'))) ∨
        (∃ line ∈ (textLines s).tail, commandThenSpaces line) := by
  induction s generalizing prev with
  | nil =>
    rw [searchFrom, matchItems_CheckCLARe_iff]
    simp [textLines, splitAt]
  | cons c cs ih =>
    rw [searchFrom, Bool.or_eq_true, matchItems_CheckCLARe_iff]
    rw [show (searchFrom CheckCLARe (some c) cs = true ↔ _) from ih (some c)]
    by_cases hc : c = '\n'
    · subst hc
      rw [textLines_newline, List.tail_cons]
      nth_rewrite 2 [textLines_eq cs]
      rw [List.exists_mem_cons_iff]
      simp
    · rw [textLines_other c cs hc, List.tail_cons]
      simp [hc]

/-- C5, as stated, fails: the text `  /CHECK-CLA  ` has a line that consists of the
command surrounded by whitespace, and the pattern does not match it, since `^` stands
right before the slash. -/
theorem CheckCLARe_leading_space_counterexample :
    (∃ line ∈ textLines "  /CHECK-CLA  ".toList, commandSurrounded line) ∧
      MatchString CheckCLARe "  /CHECK-CLA  ".toList = false := by
  refine ⟨⟨"  /CHECK-CLA  ".toList, by decide,
    "  ".toList, "/CHECK-CLA".toList, "  ".toList, by decide, by decide, ?_, by decide⟩, by decide⟩
  unfold isCommand
  repeat first | exact List.Forall₂.nil | refine List.Forall₂.cons (by decide) ?_

/-- C5, amended: the pattern matches a text exactly when some line of it consists of
`/check-cla` in any letter case, optionally followed by whitespace, and nothing else
(no whitespace before it). `/CHECK-CLA  ` is recognised; `/check-cla now` and
`please /check-cla` are not. -/
theorem CheckCLARe_recognition (text : Str) :
    (MatchString CheckCLARe text = true ↔ ∃ line ∈ textLines text, commandThenSpaces line) ∧
    MatchString CheckCLARe "/CHECK-CLA  ".toList = true ∧
    MatchString CheckCLARe "/check-cla now".toList = false ∧
    MatchString CheckCLARe "please /check-cla".toList = false := by
  refine ⟨?_, by decide, by decide, by decide⟩
  unfold MatchString
  rw [searchFrom_iff, textLines_eq text, List.exists_mem_cons_iff, List.tail_cons]
  simp

/-! ## Link creation -/

theorem attachOrgSignature_state (d : LinkDeps) (input : LinkCreateOption) (st : LinkState)
    (r : Except failedApiResult LinkCreateOption) (st' : LinkState)
    (h : attachOrgSignature d input st = (r, st')) :
    st' = st ∨ st' = st.emit (Event.readInputFile d.fileNameOfUploadingOrgSignatue) := by
  unfold attachOrgSignature at h
  dsimp only at h
  repeat' split at h
  all_goals cases h
  all_goals simp

theorem beforeLock_ok (d : LinkDeps) (doWhat : Str) (l : Locked)
    (h : beforeLock d doWhat = .ok l) :
    l.st.held = true ∧ Event.Lock l.filePath true ∈ l.st.trace ∧
      ∀ e ∈ l.st.trace, e.isPrelude = true := by
  unfold beforeLock at h
  dsimp only at h
  repeat' split at h
  all_goals cases h
  rcases attachOrgSignature_state _ _ _ _ _ ‹attachOrgSignature d _ _ = _› with rfl | rfl <;>
    simp [acquire, LinkState.emit, Event.isPrelude]

theorem beforeLock_error (d : LinkDeps) (doWhat : Str) (st : LinkState)
    (h : beforeLock d doWhat = .error st) :
    st.held = false ∧ ∀ e ∈ st.trace, e.isUnlock = false ∧ ∀ p, e ≠ Event.Lock p true := by
  unfold beforeLock at h
  dsimp only at h
  repeat' split at h
  all_goals cases h
  all_goals try (simp [sendResp, LinkState.emit, Event.isUnlock]; done)
  all_goals
    rcases attachOrgSignature_state _ _ _ _ _ ‹attachOrgSignature d _ _ = _› with rfl | rfl <;>
      simp [sendResp, LinkState.emit, Event.isUnlock]

theorem Continues.refl (st : LinkState) : Continues st st :=
  ⟨rfl, [], by simp, by simp⟩

theorem Continues.trans {a b c : LinkState} (h1 : Continues a b) (h2 : Continues b c) :
    Continues a c := by
  obtain ⟨hh1, x, hx, hx'⟩ := h1
  obtain ⟨hh2, y, hy, hy'⟩ := h2
  refine ⟨hh2.trans hh1, x ++ y, by rw [hy, hx, List.append_assoc], ?_⟩
  intro e he
  rcases List.mem_append.mp he with h | h
  · exact hx' e h
  · exact hy' e h

theorem Continues.emit (st : LinkState) (e : Event) (he : e.isUnlock = false) :
    Continues st (st.emit e) :=
  ⟨rfl, [e], rfl, by simpa using he⟩

theorem Continues.emit_emit (st : LinkState) (e1 e2 : Event) (h1 : e1.isUnlock = false)
    (h2 : e2.isUnlock = false) : Continues st ((st.emit e1).emit e2) :=
  (Continues.emit st e1 h1).trans (Continues.emit _ e2 h2)

theorem Continues.sendResp (doWhat : Str) (fr : failedApiResult) (st : LinkState) :
    Continues st (sendResp doWhat fr st) :=
  Continues.emit st _ rfl

theorem writeCorpCLA_continues (d : LinkDeps) (input : LinkCreateOption) (linkID : Str)
    (st : LinkState) : Continues st (writeCorpCLA d input linkID st).2 := by
  unfold writeCorpCLA
  dsimp only
  repeat' split
  · exact Continues.emit _ _ rfl
  · exact Continues.emit_emit _ _ _ rfl rfl
  · exact Continues.emit_emit _ _ _ rfl rfl
  · exact Continues.refl _

theorem writeIndividualCLA_continues (d : LinkDeps) (input : LinkCreateOption) (linkID : Str)
    (st : LinkState) : Continues st (writeIndividualCLA d input linkID st).2 := by
  unfold writeIndividualCLA
  dsimp only
  repeat' split
  · exact Continues.emit _ _ rfl
  · exact Continues.emit _ _ rfl
  · exact Continues.refl _

theorem writeLocalFileOfLink_continues (d : LinkDeps) (input : LinkCreateOption) (linkID : Str)
    (st : LinkState) : Continues st (writeLocalFileOfLink d input linkID st).2 := by
  unfold writeLocalFileOfLink
  have hc := writeCorpCLA_continues d input linkID st
  split
  · rename_i h
    rw [h] at hc
    exact hc
  · rename_i h
    rw [h] at hc
    exact hc.trans (writeIndividualCLA_continues _ _ _ _)

theorem initializeSigning_continues (d : LinkDeps) (input : LinkCreateOption) (linkID : Str)
    (orgRepo : OrgRepo) (st : LinkState) :
    Continues st (initializeSigning d input linkID orgRepo st).2 := by
  unfold initializeSigning
  dsimp only
  repeat' split
  · exact Continues.emit _ _ rfl
  · exact Continues.emit_emit _ _ _ rfl rfl
  · exact Continues.emit_emit _ _ _ rfl rfl

theorem linkUnderLock_continues (d : LinkDeps) (doWhat : Str) (pl : accessToken)
    (input : LinkCreateOption) (st : LinkState) :
    Continues st (linkUnderLock d doWhat pl input st) := by
  unfold linkUnderLock
  dsimp only
  have h0 : Continues st
      (st.emit (Event.GetLinkID (buildOrgRepo input.Platform input.OrgID input.RepoID))) :=
    Continues.emit _ _ rfl
  split
  · exact h0.trans (Continues.sendResp _ _ _)
  · split
    · exact h0.trans (Continues.sendResp _ _ _)
    · have hw := writeLocalFileOfLink_continues d input
        (d.genLinkID (buildOrgRepo input.Platform input.OrgID input.RepoID))
        (st.emit (Event.GetLinkID (buildOrgRepo input.Platform input.OrgID input.RepoID)))
      split
      · rename_i h
        rw [h] at hw
        exact (h0.trans hw).trans (Continues.sendResp _ _ _)
      · rename_i st1 h
        rw [h] at hw
        have hi := initializeSigning_continues d input
          (d.genLinkID (buildOrgRepo input.Platform input.OrgID input.RepoID))
          (buildOrgRepo input.Platform input.OrgID input.RepoID) st1
        split
        · rename_i h'
          rw [h'] at hi
          exact ((h0.trans hw).trans hi).trans (Continues.sendResp _ _ _)
        · rename_i st2 h'
          rw [h'] at hi
          have hc : Continues st2 ((st2.emit (Event.logInfo "input.Create".toList)).emit
              (Event.Create (d.genLinkID (buildOrgRepo input.Platform input.OrgID input.RepoID))
                pl.User)) :=
            Continues.emit_emit _ _ _ rfl rfl
          split
          · exact (((h0.trans hw).trans hi).trans hc).trans (Continues.sendResp _ _ _)
          · exact (((h0.trans hw).trans hi).trans hc).trans (Continues.emit _ _ rfl)

theorem isUnlock_of_isPrelude (e : Event) (h : e.isPrelude = true) : e.isUnlock = false := by
  cases e <;> simp_all [Event.isPrelude, Event.isUnlock]

/-- C8: `Link` never returns with the lock held. In a run in which `util.Lock`
succeeds, `unlock` is invoked exactly once, as the last thing the run does, after the
lock was acquired; a run that ends before that invokes no `unlock` and acquires no
lock. -/
theorem Link_lock_release (d : LinkDeps) :
    (LinkController.Link d).held = false ∧
    (∀ l, beforeLock d "create link".toList = .ok l →
      ∃ pre, (LinkController.Link d).trace = pre ++ [Event.unlock l.filePath] ∧
        Event.Lock l.filePath true ∈ pre ∧ ∀ e ∈ pre, e.isUnlock = false) ∧
    (∀ st, beforeLock d "create link".toList = .error st →
      LinkController.Link d = st ∧
        ∀ e ∈ st.trace, e.isUnlock = false ∧ ∀ p, e ≠ Event.Lock p true) := by
  unfold LinkController.Link
  dsimp only
  cases hb : beforeLock d "create link".toList with
  | error st =>
    obtain ⟨h1, h2⟩ := beforeLock_error d _ st hb
    refine ⟨h1, ?_, ?_⟩
    · intro l hl
      cases hl
    · intro st' hst
      cases hst
      exact ⟨rfl, h2⟩
  | ok l =>
    obtain ⟨_, h2, h3⟩ := beforeLock_ok d _ l hb
    obtain ⟨_, added, hadd, hno⟩ := linkUnderLock_continues d "create link".toList l.pl l.input l.st
    refine ⟨rfl, ?_, ?_⟩
    · intro l' hl
      cases hl
      refine ⟨l.st.trace ++ added, ?_, List.mem_append_left _ h2, ?_⟩
      · simp only [unlock, hadd]
      · intro e he
        rcases List.mem_append.mp he with h | h
        · exact isUnlock_of_isPrelude e (h3 e h)
        · exact hno e h
    · intro st hst
      cases hst

theorem Link_lock_release_witness :
    (LinkController.Link (exampleDeps (.ok "x".toList))).held = false ∧
    ∃ pre, (LinkController.Link (exampleDeps (.ok "x".toList))).trace =
        pre ++ [Event.unlock "github/orgA/repo1".toList] ∧
      Event.Lock "github/orgA/repo1".toList true ∈ pre ∧ ∀ e ∈ pre, e.isUnlock = false :=
  ⟨(Link_lock_release (exampleDeps (.ok "x".toList))).1,
    (Link_lock_release (exampleDeps (.ok "x".toList))).2.1 exampleLocked rfl⟩

theorem prelude_no_response (xs : List Event) (h : ∀ e ∈ xs, e.isPrelude = true) :
    xs.filter Event.isResponse = [] := by
  rw [List.filter_eq_nil_iff]
  intro e he
  have := h e he
  cases e <;> simp_all [Event.isPrelude, Event.isResponse]

theorem prelude_no_mutation (xs : List Event) (h : ∀ e ∈ xs, e.isPrelude = true) :
    ∀ e ∈ xs, e.isLinkMutation = false := by
  intro e he
  have := h e he
  cases e <;> simp_all [Event.isPrelude, Event.isLinkMutation]

/-- The run of `Link` that ends with a failure right after `GetLinkID`. -/
theorem Link_refused (l : Locked) (fr : failedApiResult)
    (h3 : ∀ e ∈ l.st.trace, e.isPrelude = true) :
    (unlock l.filePath (sendResp "create link".toList fr
        (l.st.emit (Event.GetLinkID
          (buildOrgRepo l.input.Platform l.input.OrgID l.input.RepoID))))).trace.filter
        Event.isResponse = [Event.sendFailedResp "create link".toList fr] ∧
    ∀ e ∈ (unlock l.filePath (sendResp "create link".toList fr
        (l.st.emit (Event.GetLinkID
          (buildOrgRepo l.input.Platform l.input.OrgID l.input.RepoID))))).trace,
      e.isLinkMutation = false := by
  constructor
  · simp only [unlock, sendResp, LinkState.emit, List.filter_append,
      prelude_no_response _ h3]
    rfl
  · intro e he
    simp only [unlock, sendResp, LinkState.emit, List.mem_append, List.mem_singleton] at he
    rcases he with ((he | he) | he) | he
    · exact prelude_no_mutation _ h3 e he
    · rw [he]; rfl
    · rw [he]; rfl
    · rw [he]; rfl

/-- C7: for a request that has passed parsing, validation, the owner check and lock
acquisition, (i) when `GetLinkID` returns without error the only response is the
`errLinkExists` failure with status 400 and `Link` makes no document write, signing
initialisation or link record; (ii) when `GetLinkID` fails with another error than
`ErrNoLink` the only response is that model error, and again nothing is written;
(iii) `Link` writes something only when `GetLinkID` fails with `ErrNoLink`. -/
theorem Link_existence_check (d : LinkDeps) (l : Locked)
    (hpass : beforeLock d "create link".toList = .ok l) :
    (∀ id, d.GetLinkID (buildOrgRepo l.input.Platform l.input.OrgID l.input.RepoID) = .ok id →
      (LinkController.Link d).trace.filter Event.isResponse =
        [Event.sendFailedResp "create link".toList
          (newFailedApiResult 400 ApiErrCode.errLinkExists "recreate link".toList)] ∧
      ∀ e ∈ (LinkController.Link d).trace, e.isLinkMutation = false) ∧
    (∀ merr, d.GetLinkID (buildOrgRepo l.input.Platform l.input.OrgID l.input.RepoID)
        = .error merr → merr.IsErrorOf ModelErrCode.ErrNoLink = false →
      (LinkController.Link d).trace.filter Event.isResponse =
        [Event.sendFailedResp "create link".toList (d.parseModelError merr)] ∧
      ∀ e ∈ (LinkController.Link d).trace, e.isLinkMutation = false) ∧
    ((∃ e ∈ (LinkController.Link d).trace, e.isLinkMutation = true) →
      ∃ merr, d.GetLinkID (buildOrgRepo l.input.Platform l.input.OrgID l.input.RepoID)
          = .error merr ∧ merr.IsErrorOf ModelErrCode.ErrNoLink = true) := by
  obtain ⟨_, _, h3⟩ := beforeLock_ok d _ l hpass
  have hL : LinkController.Link d =
      unlock l.filePath (linkUnderLock d "create link".toList l.pl l.input l.st) := by
    unfold LinkController.Link
    simp only [hpass]
  have h1 : ∀ id, d.GetLinkID (buildOrgRepo l.input.Platform l.input.OrgID l.input.RepoID)
      = .ok id →
      (LinkController.Link d).trace.filter Event.isResponse =
        [Event.sendFailedResp "create link".toList
          (newFailedApiResult 400 ApiErrCode.errLinkExists "recreate link".toList)] ∧
      ∀ e ∈ (LinkController.Link d).trace, e.isLinkMutation = false := by
    intro id hid
    have : linkUnderLock d "create link".toList l.pl l.input l.st =
        sendResp "create link".toList
          (newFailedApiResult 400 ApiErrCode.errLinkExists "recreate link".toList)
          (l.st.emit (Event.GetLinkID
            (buildOrgRepo l.input.Platform l.input.OrgID l.input.RepoID))) := by
      unfold linkUnderLock
      simp only [hid]
    rw [hL, this]
    exact Link_refused l _ h3
  have h2 : ∀ merr, d.GetLinkID (buildOrgRepo l.input.Platform l.input.OrgID l.input.RepoID)
        = .error merr → merr.IsErrorOf ModelErrCode.ErrNoLink = false →
      (LinkController.Link d).trace.filter Event.isResponse =
        [Event.sendFailedResp "create link".toList (d.parseModelError merr)] ∧
      ∀ e ∈ (LinkController.Link d).trace, e.isLinkMutation = false := by
    intro merr hm hno
    have : linkUnderLock d "create link".toList l.pl l.input l.st =
        sendResp "create link".toList (d.parseModelError merr)
          (l.st.emit (Event.GetLinkID
            (buildOrgRepo l.input.Platform l.input.OrgID l.input.RepoID))) := by
      unfold linkUnderLock
      simp only [hm, hno]
      rfl
    rw [hL, this]
    exact Link_refused l _ h3
  refine ⟨h1, h2, ?_⟩
  rintro ⟨e, he, hmut⟩
  cases hg : d.GetLinkID (buildOrgRepo l.input.Platform l.input.OrgID l.input.RepoID) with
  | ok id =>
    have := (h1 id hg).2 e he
    rw [this] at hmut
    exact absurd hmut (by simp)
  | error merr =>
    cases hno : merr.IsErrorOf ModelErrCode.ErrNoLink with
    | true => exact ⟨merr, rfl, hno⟩
    | false =>
      have := (h2 merr hg hno).2 e he
      rw [this] at hmut
      exact absurd hmut (by simp)

theorem Link_existence_check_witness :
    beforeLock (exampleDeps (.ok "x".toList)) "create link".toList = .ok exampleLocked ∧
    (LinkController.Link (exampleDeps (.ok "x".toList))).trace.filter Event.isResponse =
        [Event.sendFailedResp "create link".toList
          (newFailedApiResult 400 ApiErrCode.errLinkExists "recreate link".toList)] ∧
    ∀ e ∈ (LinkController.Link (exampleDeps (.ok "x".toList))).trace,
      e.isLinkMutation = false :=
  ⟨rfl, (Link_existence_check (exampleDeps (.ok "x".toList)) exampleLocked rfl).1
    "x".toList rfl⟩

/-! ## Signing link of the guidance comment -/

set_option maxRecDepth 100000

/-- C10, at the failing input: for the base URL `https://cla.example.com/sign` and the
CLA `abc`, `path.Join` gives `https:/cla.example.com/sign/abc`, which is not the base
URL followed by `/abc`, and this is the signing link of the comment that `Handle`
posts. -/
theorem Handle_signing_link_example :
    pathJoin [(exampleCla (reliableClient (.ok []))).signURL, exampleConfig.CLAID] =
      "https:/cla.example.com/sign/abc".toList ∧
    pathJoin [(exampleCla (reliableClient (.ok []))).signURL, exampleConfig.CLAID] ≠
      "https://cla.example.com/sign".toList ++ "/".toList ++ exampleConfig.CLAID ∧
    ((exampleCla (reliableClient (.ok [("abcdef1234".toList, "m".toList)]))).Handle examplePR ∅
        (freshWorld ∅)).2.comments =
      ["Thanks for your pull request.\n\nThe authors of the following commits have not signed the Contributor License Agreement (CLA):\n\n**abcdef12** | m\n\nPlease check the [**FAQs**](https://faq.example.com/author) first.\nYou can click [**here**](https:/cla.example.com/sign/abc) to sign the CLA. After signing the CLA, you must comment \"/check-cla\" to check the CLA status again.".toList] := by
  refine ⟨by decide, by decide, by decide⟩

end CLA
